import Mathlib

/-!
# Verification of the event_scheduler calendar store

A shallow embedding of `src/event_calendar.py` (class `EventCalendar`).

Modelling conventions:
* Time is discretized at the calendar's 1-minute granularity; timestamps are
  `Nat` minutes counted from the grid origin (`pd.to_datetime(...).floor('min')`).
* A pandas cell `self.calendar.at[t, room]` is a Python list of event dicts;
  here `Cal.grid : Nat → String → List Event`.  The DataFrame index is the
  inclusive range `[0, lastSlot]`; only `copy_event` inspects membership in
  the index, so `lastSlot` is carried as a field and the cell accessor is
  total (every claim below is settled at in-range slots).
* A Python `raise ValueError` is an `err` result; the `CalResult` carries the
  calendar state as it stands when the method returns or raises, so that
  mutation-before-raise (as in `edit_event`) is observable.
-/

/-- An event dict `{'event_name': ..., 'start_time': ..., 'end_time': ...}`. -/
structure Event where
  event_name : String
  start_time : Nat
  end_time : Nat
deriving DecidableEq, Repr

/-- The calendar: the occupancy grid plus the last timestamp of the
DataFrame's index (`pd.date_range(start, start + num_days, freq)` is
inclusive of its end point). -/
structure Cal where
  grid : Nat → String → List Event
  lastSlot : Nat

/-- `self.calendar.at[t, room]`. -/
def Cal.cellAt (c : Cal) (t : Nat) (room : String) : List Event :=
  c.grid t room

/-- `self.calendar.at[t, room] = v`. -/
def Cal.setCell (c : Cal) (t : Nat) (room : String) (v : List Event) : Cal :=
  { c with grid := fun t' r' => if t' = t ∧ r' = room then v else c.grid t' r' }

/-- A freshly constructed calendar: every cell is the empty list
(`self.calendar.applymap(lambda x: [])`). -/
def emptyCal (lastSlot : Nat) : Cal :=
  { grid := fun _ _ => [], lastSlot := lastSlot }

/-- `pd.date_range(start=a, end=b, freq='1T')`: the inclusive list
`[a, a+1, ..., b]`, empty when `b < a`. -/
def dateRangeIncl (a b : Nat) : List Nat :=
  (List.range (b + 1 - a)).map (· + a)

/-- The slots an event starting at `start` with duration `dur` covers:
`pd.date_range(start, end - 1min)` with `end = start + dur`, i.e. the
half-open range `[start, start + dur)` (empty when `dur = 0`). -/
def coveredSlots (start dur : Nat) : List Nat :=
  (List.range dur).map (· + start)

/-- The scan of `find_event`: the first event of the list whose
`event_name` matches, with its position (Python returns `(None, -1)` when
absent; here `none`). -/
def findEventAux (name : String) : List Event → Nat → Option (Event × Nat)
  | [], _ => none
  | e :: es, i =>
      if e.event_name = name then some (e, i) else findEventAux name es (i + 1)

/-- `find_event(event_datetime, room, event_name)`. -/
def findEvent (c : Cal) (t : Nat) (room name : String) : Option (Event × Nat) :=
  findEventAux name (c.cellAt t room) 0

/-- `check_overlap(room, start_datetime, end_datetime)`: scans the inclusive
range and raises `ValueError` when a scanned cell is non-empty.  Modelled as
a Bool: `true` means the `ValueError` is raised (there is no mutation in
either case, and no return value on success). -/
def check_overlap (c : Cal) (room : String) (a b : Nat) : Bool :=
  (dateRangeIncl a b).any fun t => !(c.cellAt t room).isEmpty

/-- The `ValueError`s the methods raise, by their message. -/
inductive CalErr where
  /-- "Event time overlap" / "Event time overlap with another event." -/
  | overlap
  /-- "Original event not found." -/
  | notFound
  /-- "Attempted to access a date outside of the calendar's range: ..." -/
  | outOfRange
deriving DecidableEq, Repr

/-- The outcome of a mutating method: `ok c` is a normal return, `err e c`
a raised `ValueError`; `c` is the calendar state when the method exits. -/
inductive CalResult where
  | ok (c : Cal)
  | err (e : CalErr) (c : Cal)

/-- The calendar state when the method exits, raise or not. -/
def CalResult.state : CalResult → Cal
  | .ok c => c
  | .err _ c => c

/-- The raised error, `none` for a normal return. -/
def CalResult.errKind : CalResult → Option CalErr
  | .ok _ => none
  | .err e _ => some e

/-- `add_event(room, start_datetime, event_name, duration_minutes)`:
computes the covered slots, raises on the first non-empty one, else writes
`[event]` into every covered slot. -/
def addEvent (c : Cal) (room : String) (start : Nat) (name : String)
    (dur : Nat) : CalResult :=
  let endT := start + dur
  let event : Event := ⟨name, start, endT⟩
  let slots := coveredSlots start dur
  if slots.any (fun t => !(c.cellAt t room).isEmpty) then
    .err .overlap c
  else
    .ok (slots.foldl (fun acc t => acc.setCell t room [event]) c)

/-- `remove_event(room, date, event_name)`: filters the single cell at
`(date, room)`; both Python branches write the filtered list back. -/
def removeEvent (c : Cal) (room : String) (date : Nat) (name : String) : Cal :=
  let events := c.cellAt date room
  let filtered := events.filter fun e => e.event_name ≠ name
  if filtered.isEmpty then
    c.setCell date room []
  else
    c.setCell date room filtered

/-- `edit_event(original_datetime, original_room, original_event_name,
new_room, new_start_datetime, new_event_name, new_duration_minutes)`:
find the original, remove it (one cell), default the unspecified
parameters, check the new range for events with a different name, then
overwrite every new slot.  On the overlap raise the calendar keeps the
state left by the removal. -/
def editEvent (c : Cal) (origT : Nat) (origRoom origName : String)
    (newRoom? : Option String) (newStart? : Option Nat)
    (newName? : Option String) (newDur? : Option Nat) : CalResult :=
  match findEvent c origT origRoom origName with
  | none => .err .notFound c
  | some (origEvent, _) =>
    let c1 := removeEvent c origRoom origT origName
    let newRoom := newRoom?.getD origRoom
    let newStart := newStart?.getD origT
    let newName := newName?.getD origName
    let newDur := newDur?.getD (origEvent.end_time - origEvent.start_time)
    let endT := newStart + newDur
    let slots := coveredSlots newStart newDur
    if slots.any (fun t =>
        (c1.cellAt t newRoom).any fun e => e.event_name ≠ origName) then
      .err .overlap c1
    else
      let newEvent : Event := ⟨newName, newStart, endT⟩
      .ok (slots.foldl (fun acc t => acc.setCell t newRoom [newEvent]) c1)

/-- `copy_event(original_datetime, original_room, event_name, new_room,
new_start_datetime)`: the method first tests
`new_start_datetime not in self.calendar.index` — `None` is never in a
`DatetimeIndex`, so an omitted `new_start_datetime` raises here and the
later `if new_start_datetime is None` default is dead code.  On a conflict
in the target range the method logs a warning and returns normally with no
mutation; on success it appends the copy to every target cell. -/
def copyEvent (c : Cal) (origT : Nat) (origRoom name : String)
    (newRoom? : Option String) (newStart? : Option Nat) : CalResult :=
  match newStart? with
  | none => .err .outOfRange c
  | some newStart =>
    if newStart > c.lastSlot then .err .outOfRange c
    else
      -- the second range validation (index[0] ≤ newStart ≤ index[-1]) is
      -- subsumed by index membership and never fires
      match findEvent c origT origRoom name with
      | none => .err .notFound c
      | some (origEvent, _) =>
        let newRoom := newRoom?.getD origRoom
        let dur := origEvent.end_time - origEvent.start_time
        let newEnd := newStart + dur
        let slots := coveredSlots newStart dur
        if slots.any (fun t => !(c.cellAt t newRoom).isEmpty) then
          .ok c
        else
          let newEvent : Event := ⟨name, newStart, newEnd⟩
          .ok (slots.foldl
            (fun acc t => acc.setCell t newRoom (acc.cellAt t newRoom ++ [newEvent]))
            c)

/-- One mutating call on the calendar, for stating invariants over
operation sequences. -/
inductive Op where
  | add (room : String) (start : Nat) (name : String) (dur : Nat)
  | remove (room : String) (date : Nat) (name : String)
  | edit (origT : Nat) (origRoom origName : String)
      (newRoom? : Option String) (newStart? : Option Nat)
      (newName? : Option String) (newDur? : Option Nat)
  | copy (origT : Nat) (origRoom name : String)
      (newRoom? : Option String) (newStart? : Option Nat)

/-- Apply one call (`remove_event` never raises and always returns). -/
def applyOp (c : Cal) : Op → CalResult
  | .add room start name dur => addEvent c room start name dur
  | .remove room date name => .ok (removeEvent c room date name)
  | .edit t r n nr ns nn nd => editEvent c t r n nr ns nn nd
  | .copy t r n nr ns => copyEvent c t r n nr ns

/-- Apply one call, keeping only a successful (non-raising) outcome. -/
def applySucc (c : Cal) (op : Op) : Option Cal :=
  match applyOp c op with
  | .ok c' => some c'
  | .err _ _ => none

/-- Run a sequence of calls, all of which must succeed. -/
def runOps : Cal → List Op → Option Cal
  | c, [] => some c
  | c, op :: ops =>
    match applySucc c op with
    | some c' => runOps c' ops
    | none => none

/-! ## Basic lemmas about cells, slot ranges and the write loops -/

theorem cellAt_setCell (c : Cal) (ts : Nat) (room : String) (v : List Event)
    (t : Nat) (r : String) :
    (c.setCell ts room v).cellAt t r = if t = ts ∧ r = room then v else c.cellAt t r := by
  rfl

theorem cellAt_emptyCal (n t : Nat) (r : String) : (emptyCal n).cellAt t r = [] := rfl

theorem mem_coveredSlots {t start dur : Nat} :
    t ∈ coveredSlots start dur ↔ start ≤ t ∧ t < start + dur := by
  simp only [coveredSlots, List.mem_map, List.mem_range]
  constructor
  · rintro ⟨k, hk, rfl⟩; omega
  · rintro ⟨h1, h2⟩; exact ⟨t - start, by omega, by omega⟩

theorem nodup_coveredSlots (start dur : Nat) : (coveredSlots start dur).Nodup :=
  (List.nodup_range dur).map fun _ _ h => by omega

theorem mem_dateRangeIncl {t a b : Nat} :
    t ∈ dateRangeIncl a b ↔ a ≤ t ∧ t ≤ b := by
  simp only [dateRangeIncl, List.mem_map, List.mem_range]
  constructor
  · rintro ⟨k, hk, rfl⟩; omega
  · rintro ⟨h1, h2⟩; exact ⟨t - a, by omega, by omega⟩

/-- Writing the same singleton payload into every slot of a list: the cell
at `(t, r)` afterwards. -/
theorem cellAt_foldl_set (slots : List Nat) (c : Cal) (room : String)
    (v : List Event) (t : Nat) (r : String) :
    ((slots.foldl (fun acc ts => acc.setCell ts room v) c).cellAt t r)
      = if t ∈ slots ∧ r = room then v else c.cellAt t r := by
  induction slots generalizing c with
  | nil => simp
  | cons ts rest ih =>
    simp only [List.foldl_cons, ih, cellAt_setCell, List.mem_cons]
    by_cases h1 : t ∈ rest <;> by_cases h2 : r = room <;> by_cases h3 : t = ts <;> simp_all

/-- Appending the same event to every slot of a duplicate-free list: the
cell at `(t, r)` afterwards. -/
theorem cellAt_foldl_append (slots : List Nat) (c : Cal) (room : String)
    (e : Event) (t : Nat) (r : String) (hnd : slots.Nodup) :
    ((slots.foldl
        (fun acc ts => acc.setCell ts room (acc.cellAt ts room ++ [e])) c).cellAt t r)
      = if t ∈ slots ∧ r = room then c.cellAt t r ++ [e] else c.cellAt t r := by
  induction slots generalizing c with
  | nil => simp
  | cons ts rest ih =>
    rw [List.nodup_cons] at hnd
    simp only [List.foldl_cons, ih _ hnd.2, cellAt_setCell, List.mem_cons]
    by_cases h1 : t ∈ rest <;> by_cases h2 : r = room <;> by_cases h3 : t = ts
    · exact absurd (h3 ▸ h1) hnd.1
    · simp_all
    · simp_all
    · simp_all
    · simp_all
    · simp_all
    · simp_all
    · simp_all

/-! ## Concrete fixtures used by witnesses and counterexamples -/

/-- One event `M` in room `R` at slot 0, in an otherwise empty calendar. -/
def busyCal : Cal := (emptyCal 5).setCell 0 "R" [⟨"M", 0, 1⟩]

/-- Event `M` at `(0, R)` and event `Y` at `(0, S)`. -/
def twoRoomCal : Cal :=
  ((emptyCal 5).setCell 0 "R" [⟨"M", 0, 1⟩]).setCell 0 "S" [⟨"Y", 0, 1⟩]

/-- One event `X` in room `R` at slot 2. -/
def xCal : Cal := (emptyCal 5).setCell 2 "R" [⟨"X", 2, 3⟩]

/-- A two-minute event `M` added to an empty calendar: slots 0 and 1 of
room `R` both hold its payload. -/
def twoMinCal : Cal := (addEvent (emptyCal 10) "R" 0 "M" 2).state

/-! ## C5: atomicity of add -/

/-- C5.  Atomicity of add: whenever the covered range `[start, start+dur)`
meets a non-empty slot of `room`, `add_event` raises the overlap
`ValueError` and the calendar it leaves behind is exactly the input
calendar — no cell is mutated. -/
theorem add_overlap_atomic (c : Cal) (room : String) (start : Nat)
    (name : String) (dur : Nat)
    (h : ∃ t ∈ coveredSlots start dur, c.cellAt t room ≠ []) :
    addEvent c room start name dur = .err .overlap c := by
  obtain ⟨t, ht, hne⟩ := h
  have hany : (coveredSlots start dur).any
      (fun t => !(c.cellAt t room).isEmpty) = true :=
    List.any_eq_true.mpr ⟨t, ht, by simpa using hne⟩
  unfold addEvent
  simp [hany]

/-- C5 witness: adding `N` over the slot already occupied by `M` raises
the overlap error and returns the calendar unchanged. -/
theorem add_overlap_atomic_witness :
    addEvent busyCal "R" 0 "N" 1 = .err .overlap busyCal :=
  add_overlap_atomic busyCal "R" 0 "N" 1 ⟨0, by decide, by decide⟩

/-! ## C10: remove touches only the queried cell -/

/-- C10.  Frame property of remove: `remove_event(room, date, name)` can
change at most the cell at `(date, room)`; every cell at another slot or
another room keeps its previous value. -/
theorem remove_frame (c : Cal) (room : String) (date : Nat) (name : String)
    (t : Nat) (r : String) (h : t ≠ date ∨ r ≠ room) :
    (removeEvent c room date name).cellAt t r = c.cellAt t r := by
  have hcond : ¬(t = date ∧ r = room) := by tauto
  simp only [removeEvent]
  split <;> simp [cellAt_setCell, hcond]

/-- C10 witness: removing `M` at `(0, R)` leaves the cell `(1, S)`
untouched. -/
theorem remove_frame_witness :
    (removeEvent busyCal "R" 0 "M").cellAt 1 "S" = busyCal.cellAt 1 "S" :=
  remove_frame busyCal "R" 0 "M" 1 "S" (Or.inl (by decide))

/-! ## C9: check_overlap semantics -/

/-- C9 counterexample: `check_overlap` has no `ignoreName` parameter and
flags a conflict (raises `ValueError`) even when every event in the
scanned range carries the one name an `ignoreName` argument would have
excused: with only `X` at slot 2, scanning `[2, 2]` raises, where the
claim (with `ignoreName = "X"`) demands `false`. -/
theorem check_overlap_no_ignore_name :
    check_overlap xCal "R" 2 2 = true ∧
    (xCal.cellAt 2 "R").all (fun e => e.event_name == "X") = true := by decide

/-- C9 (amended).  `check_overlap(room, a, b)` scans the inclusive range
`[a, b]` and raises the conflict `ValueError` exactly when some scanned
slot of `room` holds any event at all — it takes no `ignoreName`
parameter, never filters by name, and returns nothing on success. -/
theorem check_overlap_iff (c : Cal) (room : String) (a b : Nat) :
    check_overlap c room a b = true ↔
      ∃ t, a ≤ t ∧ t ≤ b ∧ c.cellAt t room ≠ [] := by
  unfold check_overlap
  rw [List.any_eq_true]
  constructor
  · rintro ⟨t, ht, he⟩
    obtain ⟨h1, h2⟩ := mem_dateRangeIncl.mp ht
    exact ⟨t, h1, h2, by simpa using he⟩
  · rintro ⟨t, h1, h2, h3⟩
    exact ⟨t, mem_dateRangeIncl.mpr ⟨h1, h2⟩, by simpa using h3⟩

/-! ## C6: copy on conflict -/

/-- C6 counterexample: copying `M` from `(0, R)` onto the occupied slot
`(0, S)` does not raise — the method logs a warning and returns normally
(`ok`, calendar unchanged), where the claim demands an overlap error. -/
theorem copy_conflict_not_an_error :
    copyEvent twoRoomCal 0 "R" "M" (some "S") (some 0) = .ok twoRoomCal := by
  rfl

/-- C6 (amended).  When the target slot range of `copy_event` meets a
non-empty slot of the target room (the target start being in range and
the source event present), the call returns normally — no exception, only
a logged warning — and the calendar is exactly the input: neither the
source's nor the target's cells are mutated. -/
theorem copy_conflict_silent (c : Cal) (origT : Nat) (origRoom name : String)
    (newRoom? : Option String) (newStart : Nat) (ev : Event) (i : Nat)
    (hin : newStart ≤ c.lastSlot)
    (hfind : findEvent c origT origRoom name = some (ev, i))
    (hconf : ∃ t ∈ coveredSlots newStart (ev.end_time - ev.start_time),
        c.cellAt t (newRoom?.getD origRoom) ≠ []) :
    copyEvent c origT origRoom name newRoom? (some newStart) = .ok c := by
  obtain ⟨t, ht, hne⟩ := hconf
  have hany : (coveredSlots newStart (ev.end_time - ev.start_time)).any
      (fun t => !(c.cellAt t (newRoom?.getD origRoom)).isEmpty) = true :=
    List.any_eq_true.mpr ⟨t, ht, by simpa using hne⟩
  simp only [copyEvent, hfind]
  rw [if_neg (by omega)]
  simp [hany]

/-- C6 witness for the amended statement, at the counterexample's input. -/
theorem copy_conflict_silent_witness :
    copyEvent twoRoomCal 0 "R" "M" (some "S") (some 0) = .ok twoRoomCal :=
  copy_conflict_silent twoRoomCal 0 "R" "M" (some "S") 0 ⟨"M", 0, 1⟩ 0
    (by decide) (by decide) ⟨0, by decide, by decide⟩

/-! ## C7: copy with omitted parameters -/

/-- C7.  Omitting `new_start_datetime` does not default to the source's
start: `None not in self.calendar.index` is tested before the defaulting
code, so `copy_event(0, "R", "M")` with both target parameters omitted
raises the out-of-range `ValueError` (its own docstring and the claim say
it duplicates the event at its original datetime). -/
theorem copy_omitted_start_raises :
    copyEvent busyCal 0 "R" "M" none none = .err .outOfRange busyCal := by
  rfl

/-! ## C3: remove clears only the queried slot -/

/-- C3.  `remove_event` does not clear the whole event: after adding the
two-minute event `M` covering slots 0 and 1 of room `R`,
`remove_event("R", 0, "M")` empties slot 0 but leaves slot 1 still
holding the payload, although slot 1 lies in `[E.start, E.end) = [0, 2)`. -/
theorem remove_leaves_spanned_slots :
    twoMinCal.cellAt 0 "R" = [⟨"M", 0, 2⟩] ∧
    twoMinCal.cellAt 1 "R" = [⟨"M", 0, 2⟩] ∧
    (removeEvent twoMinCal "R" 0 "M").cellAt 0 "R" = [] ∧
    (removeEvent twoMinCal "R" 0 "M").cellAt 1 "R" = [⟨"M", 0, 2⟩] := by
  decide

/-! ## C4: coverage consistency -/

/-- C4.  Coverage consistency fails after a sequence of successful
operations: `add_event("R", 0, "M", 2)` then `remove_event("R", 0, "M")`
both succeed, yet afterwards slot 1 holds the payload
`{M, start 0, end 2}` while slot 0 — inside `[0, 2)` — is empty. -/
theorem coverage_broken_after_successes :
    (runOps (emptyCal 10) [.add "R" 0 "M" 2, .remove "R" 0 "M"]).map
        (fun c => (c.cellAt 0 "R", c.cellAt 1 "R"))
      = some ([], [⟨"M", 0, 2⟩]) := by
  decide

/-! ## C2: edit conflict and the lost original -/

/-- The calendar after `add_event("Room A", 0, "X", 60)`. -/
def c2one : Cal := (addEvent (emptyCal 300) "Room A" 0 "X" 60).state

/-- ... and then `add_event("Room A", 60, "Y", 60)`. -/
def c2two : Cal := (addEvent c2one "Room A" 60 "Y" 60).state

/-- The outcome of editing `X` to 120 minutes, which overlaps `Y`. -/
def c2edit : CalResult := editEvent c2two 0 "Room A" "X" none none none (some 120)

/-- C2.  The failed edit does not restore the original: after adding `X`
at slot 0 and `Y` at slot 60 (both 60 minutes, both succeeding), editing
`X` to 120 minutes raises the overlap `ValueError`, and afterwards
`find_event(0, "Room A", "X")` returns nothing — the original was removed
from the queried cell and never put back. -/
theorem edit_conflict_loses_original :
    (addEvent (emptyCal 300) "Room A" 0 "X" 60).errKind = none ∧
    (addEvent c2one "Room A" 60 "Y" 60).errKind = none ∧
    c2edit.errKind = some .overlap ∧
    findEvent c2edit.state 0 "Room A" "X" = none := by
  decide

/-! ## C1: the no-overlap invariant -/

/-- Every cell of the grid holds at most one event. -/
def cellsAtMostOne (c : Cal) : Prop :=
  ∀ t r, (c.cellAt t r).length ≤ 1

theorem cellsAtMostOne_emptyCal (n : Nat) : cellsAtMostOne (emptyCal n) := by
  intro t r
  simp [cellAt_emptyCal]

theorem cellsAtMostOne_addEvent {c c' : Cal} {room : String} {start : Nat}
    {name : String} {dur : Nat} (hc : cellsAtMostOne c)
    (h : addEvent c room start name dur = .ok c') : cellsAtMostOne c' := by
  simp only [addEvent] at h
  split at h
  · exact absurd h (by simp)
  · cases h
    intro t r
    rw [cellAt_foldl_set]
    split
    · simp
    · exact hc t r

theorem cellsAtMostOne_removeEvent {c : Cal} (room : String) (date : Nat)
    (name : String) (hc : cellsAtMostOne c) :
    cellsAtMostOne (removeEvent c room date name) := by
  intro t r
  simp only [removeEvent]
  split
  · rw [cellAt_setCell]
    split
    · simp
    · exact hc t r
  · rw [cellAt_setCell]
    split
    · exact le_trans (List.length_filter_le _ _) (hc date room)
    · exact hc t r

theorem cellsAtMostOne_editEvent {c c' : Cal} {origT : Nat}
    {origRoom origName : String} {nr : Option String} {ns : Option Nat}
    {nn : Option String} {nd : Option Nat} (hc : cellsAtMostOne c)
    (h : editEvent c origT origRoom origName nr ns nn nd = .ok c') :
    cellsAtMostOne c' := by
  simp only [editEvent] at h
  split at h
  · exact absurd h (by simp)
  · split at h
    · exact absurd h (by simp)
    · cases h
      intro t r
      rw [cellAt_foldl_set]
      split
      · simp
      · exact cellsAtMostOne_removeEvent origRoom origT origName hc t r

theorem cellsAtMostOne_copyEvent {c c' : Cal} {origT : Nat}
    {origRoom name : String} {nr : Option String} {ns : Option Nat}
    (hc : cellsAtMostOne c)
    (h : copyEvent c origT origRoom name nr ns = .ok c') : cellsAtMostOne c' := by
  simp only [copyEvent] at h
  split at h
  · exact absurd h (by simp)
  · split at h
    · exact absurd h (by simp)
    · split at h
      · exact absurd h (by simp)
      · rename_i origEvent heq
        split at h
        · cases h
          exact hc
        · rename_i hnoconf
          cases h
          intro t r
          rw [cellAt_foldl_append _ _ _ _ _ _ (nodup_coveredSlots _ _)]
          split
          · rename_i hmem
            have hempty : c.cellAt t (nr.getD origRoom) = [] := by
              rw [List.any_eq_true] at hnoconf
              push_neg at hnoconf
              have := hnoconf t hmem.1
              simpa using this
            rw [hmem.2, hempty]
            simp
          · exact hc t r

theorem cellsAtMostOne_applySucc {c c' : Cal} {op : Op}
    (hc : cellsAtMostOne c) (h : applySucc c op = some c') : cellsAtMostOne c' := by
  cases op with
  | add room start name dur =>
    simp only [applySucc, applyOp] at h
    split at h
    · rename_i heq
      cases h
      exact cellsAtMostOne_addEvent hc heq
    · exact absurd h (by simp)
  | remove room date name =>
    simp only [applySucc, applyOp] at h
    cases h
    exact cellsAtMostOne_removeEvent room date name hc
  | edit origT origRoom origName nr ns nn nd =>
    simp only [applySucc, applyOp] at h
    split at h
    · rename_i heq
      cases h
      exact cellsAtMostOne_editEvent hc heq
    · exact absurd h (by simp)
  | copy origT origRoom name nr ns =>
    simp only [applySucc, applyOp] at h
    split at h
    · rename_i heq
      cases h
      exact cellsAtMostOne_copyEvent hc heq
    · exact absurd h (by simp)

theorem cellsAtMostOne_runOps {c c' : Cal} {ops : List Op}
    (hc : cellsAtMostOne c) (h : runOps c ops = some c') : cellsAtMostOne c' := by
  induction ops generalizing c with
  | nil =>
    simp only [runOps] at h
    cases h
    exact hc
  | cons op ops ih =>
    simp only [runOps] at h
    split at h
    · rename_i c1 heq
      exact ih (cellsAtMostOne_applySucc hc heq) h
    · exact absurd h (by simp)

/-- C1.  No-overlap invariant: starting from a freshly constructed
calendar, after any sequence of successful `add_event` / `remove_event` /
`edit_event` / `copy_event` calls, every cell `(slot, room)` of the grid
holds at most one event. -/
theorem no_overlap_invariant (n : Nat) (ops : List Op) (c' : Cal)
    (h : runOps (emptyCal n) ops = some c') (t : Nat) (r : String) :
    (c'.cellAt t r).length ≤ 1 :=
  cellsAtMostOne_runOps (cellsAtMostOne_emptyCal n) h t r

/-- C1 witness: after one successful `add_event`, the cell at `(0, R)`
holds at most one event. -/
theorem no_overlap_invariant_witness :
    ((((emptyCal 5).setCell 0 "R" [⟨"M", 0, 1⟩]).cellAt 0 "R").length ≤ 1) :=
  no_overlap_invariant 5 [.add "R" 0 "M" 1] _ rfl 0 "R"

/-! ## C8: edit round-trip -/

/-- The write pass shared by `add_event` and `edit_event`: the payload
`{name, start, start + dur}` written into every covered slot. -/
def addWrite (c : Cal) (room : String) (start dur : Nat) (name : String) : Cal :=
  (coveredSlots start dur).foldl
    (fun acc t => acc.setCell t room [⟨name, start, start + dur⟩]) c

theorem addWrite_cellAt (c : Cal) (room : String) (start dur : Nat)
    (name : String) (t : Nat) (r : String) :
    (addWrite c room start dur name).cellAt t r
      = if (start ≤ t ∧ t < start + dur) ∧ r = room
        then [⟨name, start, start + dur⟩] else c.cellAt t r := by
  unfold addWrite
  rw [cellAt_foldl_set]
  simp [mem_coveredSlots]

theorem addEvent_of_empty (c : Cal) (room : String) (start : Nat)
    (name : String) (dur : Nat)
    (h : ∀ t ∈ coveredSlots start dur, c.cellAt t room = []) :
    addEvent c room start name dur = .ok (addWrite c room start dur name) := by
  simp only [addEvent, addWrite]
  rw [if_neg]
  intro hcontra
  rw [List.any_eq_true] at hcontra
  obtain ⟨t, ht, hb⟩ := hcontra
  rw [h t ht] at hb
  simp at hb

/-- C8.  Edit round-trip: on a fresh calendar, `add_event("Room A", T,
"X", 60)` then `edit_event(T, "Room A", "X", new_duration_minutes=120)`
(all other parameters unspecified) both succeed; afterwards `X` occupies
exactly the slots `[T, T+120)` of Room A with unchanged name and room,
every other cell of the grid is empty, and no cell of `[T+60, T+120)`
holds the old 60-minute payload. -/
theorem edit_round_trip (n T : Nat) :
    ∃ cA c2,
      addEvent (emptyCal n) "Room A" T "X" 60 = .ok cA ∧
      editEvent cA T "Room A" "X" none none none (some 120) = .ok c2 ∧
      (∀ t, c2.cellAt t "Room A"
          = if T ≤ t ∧ t < T + 120 then [⟨"X", T, T + 120⟩] else []) ∧
      (∀ t r, r ≠ "Room A" → c2.cellAt t r = []) ∧
      (∀ t, T + 60 ≤ t → t < T + 120 →
        (⟨"X", T, T + 60⟩ : Event) ∉ c2.cellAt t "Room A") := by
  have hadd : addEvent (emptyCal n) "Room A" T "X" 60
      = .ok (addWrite (emptyCal n) "Room A" T 60 "X") :=
    addEvent_of_empty _ _ _ _ _ fun t _ => cellAt_emptyCal n t "Room A"
  set cA : Cal := addWrite (emptyCal n) "Room A" T 60 "X" with hcAdef
  have hcA : ∀ t r, cA.cellAt t r
      = if (T ≤ t ∧ t < T + 60) ∧ r = "Room A"
        then [⟨"X", T, T + 60⟩] else [] := by
    intro t r
    rw [hcAdef, addWrite_cellAt, cellAt_emptyCal]
  have hcellT : cA.cellAt T "Room A" = [⟨"X", T, T + 60⟩] := by
    rw [hcA, if_pos ⟨⟨le_refl T, by omega⟩, rfl⟩]
  have hfind : findEvent cA T "Room A" "X" = some (⟨"X", T, T + 60⟩, 0) := by
    unfold findEvent
    rw [hcellT]
    simp [findEventAux]
  have hremove : removeEvent cA "Room A" T "X" = cA.setCell T "Room A" [] := by
    simp only [removeEvent]
    rw [hcellT]
    rfl
  set cB : Cal := cA.setCell T "Room A" [] with hcBdef
  have hcB : ∀ t r, cB.cellAt t r
      = if t = T ∧ r = "Room A" then [] else cA.cellAt t r := by
    intro t r
    rw [hcBdef, cellAt_setCell]
  have hcheck : (coveredSlots T 120).any
      (fun t => (cB.cellAt t "Room A").any fun e => e.event_name ≠ "X") = false := by
    rw [List.any_eq_false]
    intro t ht
    rw [hcB]
    split
    · simp
    · rw [hcA]
      split
      · simp
      · simp
  have hedit : editEvent cA T "Room A" "X" none none none (some 120)
      = .ok (addWrite cB "Room A" T 120 "X") := by
    simp only [editEvent]
    rw [hfind, hremove]
    simp only [Option.getD]
    rw [hcheck]
    simp only [Bool.false_eq_true, if_false]
    rfl
  set c2 : Cal := addWrite cB "Room A" T 120 "X" with hc2def
  have hc2 : ∀ t r, c2.cellAt t r
      = if (T ≤ t ∧ t < T + 120) ∧ r = "Room A"
        then [⟨"X", T, T + 120⟩] else cB.cellAt t r := by
    intro t r
    rw [hc2def, addWrite_cellAt]
  refine ⟨cA, c2, hadd, hedit, ?_, ?_, ?_⟩
  · intro t
    rw [hc2]
    by_cases hm : T ≤ t ∧ t < T + 120
    · rw [if_pos ⟨hm, rfl⟩, if_pos hm]
    · have h1 : ¬((T ≤ t ∧ t < T + 120) ∧ "Room A" = "Room A") := by tauto
      have h2 : ¬(t = T ∧ "Room A" = "Room A") := by
        rintro ⟨rfl, -⟩
        exact hm ⟨le_refl t, by omega⟩
      have h3 : ¬((T ≤ t ∧ t < T + 60) ∧ "Room A" = "Room A") := by
        rintro ⟨⟨ha, hb⟩, -⟩
        exact hm ⟨ha, by omega⟩
      rw [if_neg h1, if_neg hm, hcB, if_neg h2, hcA, if_neg h3]
  · intro t r hr
    rw [hc2, if_neg (by tauto), hcB, if_neg (by tauto), hcA, if_neg (by tauto)]
  · intro t h1 h2 hmem
    rw [hc2, if_pos ⟨⟨by omega, h2⟩, rfl⟩] at hmem
    simp only [List.mem_singleton, Event.mk.injEq] at hmem
    omega
